import Mathlib

/-!
# gont: network-state enumeration and cleanup, and the Capturer's packet path

A shallow embedding of `pkg/cleanup.go`, followed by a model of the Capturer that
`pkg/capture_test.go` exercises.  The Go functions are translated one to
one; the operating-system calls they make (`ioutil.ReadDir`, `os.RemoveAll`,
`netns.DeleteNamed`, `filepath.Join`, `sort.Strings`, `sort.SearchStrings`) are
modelled over an explicit `World` that is passed through every call.

Conventions

* A Go `string` is a Lean `String`.  Go compares strings bytewise; on valid
  UTF-8 this is the code-point order used by `strLE` below.
* A path is the list of components of a cleaned absolute path (`[]` is `/`).
  gont only runs on Linux, where `path.Join` and `filepath.Join` coincide.
* `varDir`, the package-level state root declared outside `cleanup.go`, is a
  parameter of every function that reads it.
* An `error` result is `Option Error`, `none` being Go's `nil`.
-/

namespace Gont

/-! ## Values -/

/-- A Go `error` value. -/
structure Error where
  msg : String
deriving DecidableEq, Repr

/-- A cleaned absolute path, as its list of components. -/
abbrev Path := List String

/-- What `os.FileInfo` exposes to `cleanup.go`: `Name()` and `IsDir()`. -/
structure DirEntry where
  name : String
  isDir : Bool
deriving DecidableEq, Repr

/-- A Go `[]string`: the `nil` slice, or an allocated (possibly empty) slice. -/
inductive StringSlice where
  | nil : StringSlice
  | mk : List String → StringSlice
deriving DecidableEq, Repr

/-- The elements of a slice, as `range` visits them. -/
def StringSlice.toList : StringSlice → List String
  | .nil => []
  | .mk l => l

/-- Go's `append(s, x)`; the result is never `nil`. -/
def StringSlice.append (s : StringSlice) (x : String) : StringSlice :=
  .mk (s.toList ++ [x])

/-! ## Strings, sorting and searching -/

/-- Go's `a <= b` on strings: lexicographic order of the characters. -/
def strLE (a b : String) : Prop := a.toList ≤ b.toList

instance strLE_decidable : DecidableRel strLE :=
  fun a b => inferInstanceAs (Decidable (a.toList ≤ b.toList))

instance strLE_total : IsTotal String strLE :=
  ⟨fun a b => le_total a.toList b.toList⟩

instance strLE_trans : IsTrans String strLE :=
  ⟨fun _ _ _ h₁ h₂ => le_trans h₁ h₂⟩

/-- The list sorted by `sort.Strings`.  The order is total and equal strings are
indistinguishable, so every correct sorting algorithm yields this list. -/
def sortStrings (l : List String) : List String :=
  l.insertionSort strLE

/-- In-place `sort.Strings(s)`; a `nil` slice stays `nil`. -/
def StringSlice.sort : StringSlice → StringSlice
  | .nil => .nil
  | .mk l => .mk (sortStrings l)

/-- The loop of `sort.Search`: `for i < j { h := (i+j)/2; if !f(h) { i = h+1 } else { j = h } }`.
Every iteration shrinks `j - i`, so `fuel ≥ j - i` iterations are never exhausted. -/
def searchLoop (f : Nat → Bool) : Nat → Nat → Nat → Nat
  | 0, i, _ => i
  | fuel + 1, i, j =>
    if i < j then
      let h := (i + j) / 2
      if !f h then searchLoop f fuel (h + 1) j else searchLoop f fuel i h
    else i

/-- Go's `sort.Search(n, f)`. -/
def Search (n : Nat) (f : Nat → Bool) : Nat :=
  searchLoop f n 0 n

/-- Go's `sort.SearchStrings(a, x)`: `Search(len(a), func(i) { return a[i] >= x })`. -/
def SearchStrings (a : List String) (x : String) : Nat :=
  Search a.length (fun i => decide (strLE x (a.getD i "")))

/-! ## Paths -/

/-- Split a string at every `/`. -/
def splitSlash : List Char → List (List Char)
  | [] => [[]]
  | c :: cs =>
    if c = '/' then [] :: splitSlash cs
    else
      match splitSlash cs with
      | [] => [[c]]
      | h :: t => (c :: h) :: t

/-- Lexical cleaning of the components appended to a rooted path, as `path.Clean`
does it: empty and `.` components vanish, `..` removes the last component and
is dropped at the root. -/
def cleanInto (acc : Path) : List String → Path
  | [] => acc
  | c :: cs =>
    if c = "" ∨ c = "." then cleanInto acc cs
    else if c = ".." then cleanInto acc.dropLast cs
    else cleanInto (acc ++ [c]) cs

/-- Go's `filepath.Join(base, elems...)` for a cleaned absolute `base`. -/
def Join (base : Path) (elems : List String) : Path :=
  elems.foldl (fun acc e => cleanInto acc ((splitSlash e.toList).map String.mk)) base

/-- A name that is one ordinary path component, as every directory entry is. -/
def singleComponent (name : String) : Prop :=
  name ≠ "" ∧ name ≠ "." ∧ name ≠ ".." ∧ '/' ∉ name.toList

instance singleComponent_decidable (name : String) : Decidable (singleComponent name) := by
  unfold singleComponent; infer_instance

/-! ## The world: file system and named network namespaces -/

/-- One entry of the file system: `name` inside directory `parent`. -/
structure FileEntry where
  parent : Path
  name : String
  isDir : Bool
deriving DecidableEq, Repr

/-- The path of an entry. -/
def FileEntry.path (e : FileEntry) : Path := e.parent ++ [e.name]

/-- The calls that change the system, in the order they were made. -/
inductive Event where
  | deleteNamed : String → Event
  | removeAll : Path → Event
deriving DecidableEq, Repr

/-- The state of the operating system as `cleanup.go` can observe and change it. -/
structure World where
  /-- every entry of the file system -/
  files : List FileEntry
  /-- directories that cannot be read (permissions, I/O), with the error -/
  readErr : List (Path × Error)
  /-- entries that cannot be removed (busy mount, permissions), with the error -/
  stuck : List (Path × Error)
  /-- the named network namespaces that exist -/
  netns : List String
  /-- namespaces whose deletion fails, with the error -/
  nsErr : List (String × Error)
  /-- the state-changing calls made so far -/
  log : List Event
deriving DecidableEq, Repr

/-- `ENOENT`. -/
def errNotExist : Error := ⟨"no such file or directory"⟩

/-- `ENOTDIR`. -/
def errNotDir : Error := ⟨"not a directory"⟩

/-- Whether `p` is an existing directory. -/
def World.isDirectory (w : World) (p : Path) : Bool :=
  p == [] || w.files.any (fun e => e.path == p && e.isDir)

/-- Whether `p` exists and is not a directory. -/
def World.isFile (w : World) (p : Path) : Bool :=
  w.files.any (fun e => e.path == p && !e.isDir)

/-- Whether `p`, or a path on the way to `p`, is a file that is not a directory. -/
def World.throughFile (w : World) (p : Path) : Bool :=
  p.inits.any (fun q => w.isFile q)

/-- The entries of directory `p`, in file-system order. -/
def World.children (w : World) (p : Path) : List DirEntry :=
  (w.files.filter (fun e => e.parent == p)).map (fun e => ⟨e.name, e.isDir⟩)

/-- Go's `ioutil.ReadDir(p)`: the entries of `p` sorted by file name, or an error. -/
def ReadDir (w : World) (p : Path) : Except Error (List DirEntry) :=
  match w.readErr.lookup p with
  | some e => .error e
  | none =>
    if w.isDirectory p then
      .ok ((w.children p).insertionSort (fun a b => strLE a.name b.name))
    else if w.throughFile p then .error errNotDir
    else .error errNotExist

/-- The named network namespace library's `netns.DeleteNamed(name)`. -/
def DeleteNamed (w : World) (ns : String) : World × Option Error :=
  let w₁ := { w with log := w.log ++ [Event.deleteNamed ns] }
  match w.nsErr.lookup ns with
  | some e => (w₁, some e)
  | none =>
    if ns ∈ w.netns then ({ w₁ with netns := w.netns.filter (· ≠ ns) }, none)
    else (w₁, some errNotExist)

/-- The stuck entries at or below `p` that exist. -/
def World.blocked (w : World) (p : Path) : List (Path × Error) :=
  w.stuck.filter (fun s => p.isPrefixOf s.1 && w.files.any (fun e => e.path == s.1))

/-- Go's `os.RemoveAll(p)`: removes `p` and everything below it that it can and
returns the first error met; an entry survives when it is stuck or lies on the
way to a stuck entry.  Removing a path that does not exist is no error. -/
def RemoveAll (w : World) (p : Path) : World × Option Error :=
  let w₁ := { w with log := w.log ++ [Event.removeAll p] }
  match w.blocked p with
  | [] => ({ w₁ with files := w.files.filter (fun e => !p.isPrefixOf e.path) }, none)
  | (q, err) :: rest =>
    ({ w₁ with files := w.files.filter (fun e =>
        !p.isPrefixOf e.path || ((q, err) :: rest).any (fun s => e.path.isPrefixOf s.1)) },
      some err)

/-! ## `cleanup.go` -/

/-- The loop shared by `GetNetworkNames` and `GetNodeNames`:
`for _, net := range nets { if net.IsDir() { names = append(names, net.Name()) } }`. -/
def appendDirNames (names : StringSlice) (nets : List DirEntry) : StringSlice :=
  nets.foldl (fun names net => if net.isDir then names.append net.name else names) names

/-- `func GetNetworkNames() []string`. -/
def GetNetworkNames (varDir : Path) (w : World) : StringSlice :=
  let names := StringSlice.mk []
  match ReadDir w varDir with
  | .error _ => names
  | .ok nets => (appendDirNames names nets).sort

/-- `func GetNodeNames(network string) []string`. -/
def GetNodeNames (varDir : Path) (w : World) (network : String) : StringSlice :=
  let names := StringSlice.mk []
  let nodesDir := Join varDir [network, "nodes"]
  match ReadDir w nodesDir with
  | .error _ => names
  | .ok nets => (appendDirNames names nets).sort

/-- The loop of `GenerateNetworkName`: up to `n` more draws, the next being draw
number `i`; `none` when every one of them is an existing name. -/
def drawLoop (existing : List String) (draw : Nat → String) : Nat → Nat → Option String
  | 0, _ => none
  | n + 1, i =>
    let random := draw i
    let index := SearchStrings existing random
    if index ≥ existing.length || existing.getD index "" != random then some random
    else drawLoop existing draw n (i + 1)

/-- Go's `rand.Intn(n)` on the raw random value `r`; it panics (`none`) for `n ≤ 0`. -/
def Intn (r n : Nat) : Option Nat :=
  if n = 0 then none else some (r % n)

/-- `func GenerateNetworkName() string`.  `draw i` is the result of the `i`-th call
of `GetRandomName`, `Names` the package's table of names, `r₁` and `r₂` the raw
values behind the two `rand.Intn` calls.  `none` is a panic. -/
def GenerateNetworkName (varDir : Path) (w : World) (draw : Nat → String)
    (Names : List String) (r₁ r₂ : Nat) : Option String :=
  let existing := (GetNetworkNames varDir w).toList
  match drawLoop existing draw 32 0 with
  | some random => some random
  | none =>
    match Intn r₁ Names.length with
    | none => none
    | some index =>
      let random := Names.getD index ""
      match Intn r₂ 128 with
      | none => none
      | some k => some (random ++ toString (k + 1))

/-- The loop of `CleanupNetwork` over the entries of the nodes directory; the
result of `netns.DeleteNamed` is discarded. -/
def deleteNamespaces (name : String) : World → List DirEntry → World
  | w, [] => w
  | w, fi :: fis =>
    if !fi.isDir then deleteNamespaces name w fis
    else
      let nodeName := fi.name
      let netNsName := "gont-" ++ name ++ "-" ++ nodeName
      deleteNamespaces name (DeleteNamed w netNsName).1 fis

/-- `func CleanupNetwork(name string) error`. -/
def CleanupNetwork (varDir : Path) (w : World) (name : String) : World × Option Error :=
  let baseDir := Join varDir [name]
  let nodesDir := Join baseDir ["nodes"]
  match ReadDir w nodesDir with
  | .error err => (w, some err)
  | .ok fis =>
    let w₁ := deleteNamespaces name w fis
    match RemoveAll w₁ baseDir with
    | (w₂, some err) => (w₂, some err)
    | (w₂, none) => (w₂, none)

/-- The loop of `CleanupAllNetworks` over the names still to visit. -/
def cleanupLoop (varDir : Path) : World → List String → World × Option Error
  | w, [] => (w, none)
  | w, name :: rest =>
    match CleanupNetwork varDir w name with
    | (w₁, some err) => (w₁, some err)
    | (w₁, none) => cleanupLoop varDir w₁ rest

/-- `func CleanupAllNetworks() error`. -/
def CleanupAllNetworks (varDir : Path) (w : World) : World × Option Error :=
  cleanupLoop varDir w (GetNetworkNames varDir w).toList

/-! ## The Capturer's packet path

The Capturer's implementation, `pkg/capture.go`, is outside this development;
`pkg/capture_test.go` is the only code that exercises it.  This section follows
the specification's description of the Capturer: its data model, the per-packet
algorithm, flush, and the failure modes. -/

/-- Modelled from the spec: the `CapturePacket` of the missing `pkg/capture.go`, a
captured packet with the interface it was tapped on (as `node/interface`), its
capture timestamp and its raw bytes. -/
structure Packet where
  intf : String
  timestamp : Nat
  data : List Nat
deriving DecidableEq, Repr

/-- Modelled from the spec: the Capturer of `pkg/capture.go`, which is missing.  It
holds zero or one kernel-level program and any number of in-process predicates,
a packet counter, and its sinks: the file sink (records appended but not yet
flushed, and the records a reader of the file sees), the channel sink and the
callback sink.  Delivery failures are collected, not raised per packet. -/
structure Capturer where
  kernelFilter : Option (Packet → Bool)
  predicates : List (Packet → Bool)
  count : Nat
  fileBuffered : List Packet
  fileRecords : List Packet
  channel : List Packet
  callback : List Packet
  failures : List Error

/-- Modelled from the spec: the missing constructor `NewCapture`; a fresh
Capturer has counted nothing and its sinks are empty. -/
def NewCapture (kernelFilter : Option (Packet → Bool)) (predicates : List (Packet → Bool)) :
    Capturer :=
  { kernelFilter := kernelFilter, predicates := predicates, count := 0,
    fileBuffered := [], fileRecords := [], channel := [], callback := [], failures := [] }

/-- Modelled from the spec: the filter stage of the missing per-packet path.  The
kernel-level program decides first; then every in-process predicate is applied
in registration order, stopping at the first that rejects. -/
def Capturer.accepts (c : Capturer) (p : Packet) : Bool :=
  (match c.kernelFilter with
    | none => true
    | some k => k p) && c.predicates.all (fun f => f p)

/-- Modelled from the spec: the missing per-packet algorithm.  A tap event is a
packet together with the outcome of appending it to the file (`none` when the
append succeeds, the error when the disk is full or the write fails).  An
accepted packet increments the counter and is then delivered to every sink in
registration order; a failing delivery is collected and stops nothing. -/
def Capturer.onPacket (c : Capturer) (ev : Packet × Option Error) : Capturer :=
  if c.accepts ev.1 then
    let c₁ := { c with count := c.count + 1 }
    let c₂ :=
      match ev.2 with
      | none => { c₁ with fileBuffered := c₁.fileBuffered ++ [ev.1] }
      | some err => { c₁ with failures := c₁.failures ++ [err] }
    { c₂ with channel := c₂.channel ++ [ev.1], callback := c₂.callback ++ [ev.1] }
  else c

/-- Modelled from the spec: the taps of the missing Capturer deliver their events
one at a time (the counter and the file are guarded by mutual exclusion), in the
order of arrival. -/
def Capturer.capture (c : Capturer) (evs : List (Packet × Option Error)) : Capturer :=
  evs.foldl Capturer.onPacket c

/-- Modelled from the spec: the missing `Flush`.  `sinkFlush` is the outcome of
flushing the file (`none` when it succeeds).  A successful flush makes every
record appended so far readable; a failing one leaves them unreadable.  The
first failure is reported: a collected delivery failure if there is one, else
the failure of the flush itself. -/
def Capturer.Flush (c : Capturer) (sinkFlush : Option Error) : Capturer × Option Error :=
  match sinkFlush with
  | none =>
    ({ c with fileRecords := c.fileRecords ++ c.fileBuffered, fileBuffered := [] },
      c.failures.head?)
  | some err => (c, some (c.failures.head?.getD err))

/-- Modelled from the spec: the missing `Count`, the current accepted-packet count. -/
def Capturer.Count (c : Capturer) : Nat := c.count

/-! ## Concrete systems -/

/-- A state root. -/
def demoVarDir : Path := ["var", "run", "gont"]

/-- Two networks and a regular file under the state root.  Network `neta` has the
nodes `h1` and `h2` and a stray file; node `h2` is busy and cannot be removed,
and only `h1` has a namespace.  Network `netb` has the node `sw`. -/
def demoWorld : World :=
  { files :=
      [⟨[], "var", true⟩, ⟨["var"], "run", true⟩, ⟨["var", "run"], "gont", true⟩,
       ⟨demoVarDir, "netb", true⟩, ⟨demoVarDir, "neta", true⟩, ⟨demoVarDir, "lock", false⟩,
       ⟨demoVarDir ++ ["neta"], "nodes", true⟩,
       ⟨demoVarDir ++ ["neta", "nodes"], "h1", true⟩,
       ⟨demoVarDir ++ ["neta", "nodes"], "h2", true⟩,
       ⟨demoVarDir ++ ["neta", "nodes"], "x.txt", false⟩,
       ⟨demoVarDir ++ ["netb"], "nodes", true⟩,
       ⟨demoVarDir ++ ["netb", "nodes"], "sw", true⟩],
    readErr := [],
    stuck := [(demoVarDir ++ ["neta", "nodes", "h2"], ⟨"device or resource busy"⟩)],
    netns := ["gont-neta-h1", "gont-netb-sw"],
    nsErr := [],
    log := [] }

/-- The same file system with other namespaces: none of `neta` exists and the
deletion of `gont-neta-h1` is refused. -/
def demoWorldNs : World :=
  { demoWorld with netns := ["gont-netb-sw"], nsErr := [("gont-neta-h1", ⟨"operation not permitted"⟩)] }

/-- A state root holding the network `bare`, whose directory has no `nodes`
subdirectory, and nothing else. -/
def bareWorld : World :=
  { files :=
      [⟨[], "var", true⟩, ⟨["var"], "run", true⟩, ⟨["var", "run"], "gont", true⟩,
       ⟨demoVarDir, "bare", true⟩, ⟨demoVarDir ++ ["bare"], "config", false⟩],
    readErr := [], stuck := [], netns := ["gont-bare-h1"], nsErr := [], log := [] }

/-- A state root that cannot be read. -/
def lockedWorld : World :=
  { demoWorld with readErr := [(demoVarDir, ⟨"permission denied"⟩)] }

/-- Draws of `GetRandomName`: three times an existing name, then a free one. -/
def demoDraw (i : Nat) : String :=
  if i < 2 then "neta" else if i < 3 then "netb" else if i < 4 then "zeta" else "eta"

/-- Draws of `GetRandomName` that always hit an existing name. -/
def collidingDraw (i : Nat) : String :=
  if i % 2 = 0 then "neta" else "netb"

/-- Whether the first byte of the payload is the ICMPv6 type of an echo request
(128) or of an echo reply (129). -/
def isEcho (p : Packet) : Bool :=
  p.data.head? == some 128 || p.data.head? == some 129

/-- An echo request or reply seen on interface `intf`. -/
def echoPacket (intf : String) (timestamp type : Nat) : Packet := ⟨intf, timestamp, [type, 0]⟩

/-- A neighbour solicitation, which the filters of `demoCapture` reject. -/
def otherPacket : Packet := ⟨"h1/veth0", 2, [135, 0]⟩

/-- A Capturer with one kernel-level program and one in-process predicate, both
accepting echo requests and replies only. -/
def demoCapture : Capturer :=
  NewCapture (some isEcho) [isEcho]

/-- Ten tap events: an echo request and its reply on four interfaces each, and
two neighbour solicitations; every append to the file succeeds. -/
def demoEvents : List (Packet × Option Error) :=
  [(echoPacket "h1/veth0" 1 128, none), (otherPacket, none),
   (echoPacket "sw1/veth-h1" 3 128, none), (echoPacket "sw1/veth-h2" 4 128, none),
   (echoPacket "h2/veth0" 5 128, none), (echoPacket "h2/veth0" 6 129, none),
   (echoPacket "sw1/veth-h2" 7 129, none), (otherPacket, none),
   (echoPacket "sw1/veth-h1" 9 129, none), (echoPacket "h1/veth0" 10 129, none)]

/-! ## Lemmas: listing and sorting -/

theorem appendDirNames_mk (acc : List String) (nets : List DirEntry) :
    appendDirNames (.mk acc) nets = .mk (acc ++ (nets.filter (·.isDir)).map (·.name)) := by
  induction nets generalizing acc with
  | nil => simp [appendDirNames]
  | cons net nets ih =>
    unfold appendDirNames at ih ⊢
    rw [List.foldl_cons]
    cases hd : net.isDir
    · simpa [hd] using ih acc
    · simpa [hd, StringSlice.append, StringSlice.toList] using ih (acc ++ [net.name])

theorem sortStrings_sorted (l : List String) : (sortStrings l).Sorted strLE :=
  List.sorted_insertionSort strLE l

theorem sortStrings_perm (l : List String) : (sortStrings l).Perm l :=
  List.perm_insertionSort strLE l

/-- The names a successful directory listing contributes. -/
theorem listing_names (nets : List DirEntry) :
    (appendDirNames (.mk []) nets).sort =
      .mk (sortStrings ((nets.filter (·.isDir)).map (·.name))) := by
  rw [appendDirNames_mk]; simp [StringSlice.sort]

/-! ## Lemmas: binary search -/

theorem strLE_refl (a : String) : strLE a a := le_refl a.toList

theorem strLE_antisymm {a b : String} (h₁ : strLE a b) (h₂ : strLE b a) : a = b :=
  String.ext (le_antisymm h₁ h₂)

theorem searchLoop_spec (f : Nat → Bool) (n : Nat)
    (mono : ∀ k l, k ≤ l → l < n → f k = true → f l = true) :
    ∀ fuel i j, i ≤ j → j ≤ n → j - i ≤ fuel →
      (∀ k, k < i → f k = false) → (∀ k, j ≤ k → k < n → f k = true) →
      searchLoop f fuel i j ≤ n ∧ (∀ k, k < searchLoop f fuel i j → f k = false) ∧
        (∀ k, searchLoop f fuel i j ≤ k → k < n → f k = true) := by
  intro fuel
  induction fuel with
  | zero =>
    intro i j hij hjn hfuel hlo hhi
    have : i = j := by omega
    subst this
    exact ⟨hjn, hlo, hhi⟩
  | succ fuel ih =>
    intro i j hij hjn hfuel hlo hhi
    unfold searchLoop
    by_cases hlt : i < j
    · have hh1 : i ≤ (i + j) / 2 := by omega
      have hh2 : (i + j) / 2 < j := by omega
      simp only [hlt, if_true]
      cases hf : f ((i + j) / 2)
      · simp only [Bool.not_false, if_true]
        apply ih _ _ (by omega) hjn (by omega) _ hhi
        intro k hk
        cases hfk : f k
        · rfl
        · have := mono k ((i + j) / 2) (by omega) (by omega) hfk
          rw [hf] at this; exact absurd this (by simp)
      · simp only [Bool.not_true, Bool.false_eq_true, if_false]
        apply ih _ _ hh1 (by omega) (by omega) hlo
        intro k hk hkn
        exact mono _ k hk hkn hf
    · have : i = j := by omega
      subst this
      simp only [hlt, if_false]
      exact ⟨hjn, hlo, hhi⟩

theorem SearchStrings_spec (a : List String) (x : String) (hs : a.Sorted strLE) :
    SearchStrings a x ≤ a.length ∧
      (∀ k, k < SearchStrings a x → ¬ strLE x (a.getD k "")) ∧
      (∀ k, SearchStrings a x ≤ k → k < a.length → strLE x (a.getD k "")) := by
  have mono : ∀ k l, k ≤ l → l < a.length →
      decide (strLE x (a.getD k "")) = true → decide (strLE x (a.getD l "")) = true := by
    intro k l hkl hl hk
    rw [decide_eq_true_eq] at hk ⊢
    rcases Nat.eq_or_lt_of_le hkl with h | h
    · subst h; exact hk
    · have hk' : k < a.length := by omega
      have := List.pairwise_iff_getElem.mp hs k l hk' hl h
      rw [List.getD_eq_getElem _ _ hk'] at hk
      rw [List.getD_eq_getElem _ _ hl]
      exact le_trans hk this
  have := searchLoop_spec _ a.length mono a.length 0 a.length (Nat.zero_le _) (le_refl _)
    (by omega) (by intro k hk; omega) (by intro k h1 h2; omega)
  refine ⟨this.1, ?_, ?_⟩
  · intro k hk
    have := this.2.1 k hk
    simpa using this
  · intro k hk hkn
    have := this.2.2 k hk hkn
    simpa using this

/-- On a sorted slice the test of `GenerateNetworkName` is an exact membership test. -/
theorem search_test_iff (a : List String) (x : String) (hs : a.Sorted strLE) :
    (SearchStrings a x ≥ a.length || a.getD (SearchStrings a x) "" != x) = true ↔ x ∉ a := by
  obtain ⟨hle, hlo, hhi⟩ := SearchStrings_spec a x hs
  generalize SearchStrings a x = r at hle hlo hhi
  simp only [Bool.or_eq_true, decide_eq_true_eq, bne_iff_ne, ne_eq, ge_iff_le]
  constructor
  · rintro (h | h) hmem
    · obtain ⟨m, hm, rfl⟩ := List.getElem_of_mem hmem
      have := hlo m (by omega)
      rw [List.getD_eq_getElem _ _ hm] at this
      exact this (strLE_refl _)
    · obtain ⟨m, hm, rfl⟩ := List.getElem_of_mem hmem
      by_cases hmr : m < r
      · have := hlo m hmr
        rw [List.getD_eq_getElem _ _ hm] at this
        exact this (strLE_refl _)
      · have hr : r < a.length := by omega
        have h1 := hhi r (le_refl _) hr
        rw [List.getD_eq_getElem _ _ hr] at h1 h
        rcases Nat.eq_or_lt_of_le (Nat.le_of_not_lt hmr) with e | e
        · subst e; exact h rfl
        · have h2 := List.pairwise_iff_getElem.mp hs r m hr hm e
          exact h (strLE_antisymm h2 h1)
  · intro hx
    by_cases hr : a.length ≤ r
    · exact Or.inl hr
    · right
      intro h
      apply hx
      rw [← h, List.getD_eq_getElem _ _ (by omega)]
      exact List.getElem_mem _

/-! ## Lemmas: cleanup -/

theorem deleteNamespaces_frame (name : String) (fis : List DirEntry) (w : World) :
    (deleteNamespaces name w fis).files = w.files ∧
    (deleteNamespaces name w fis).readErr = w.readErr ∧
    (deleteNamespaces name w fis).stuck = w.stuck ∧
    (deleteNamespaces name w fis).log = w.log ++
      (fis.filter (·.isDir)).map (fun fi => Event.deleteNamed ("gont-" ++ name ++ "-" ++ fi.name)) := by
  induction fis generalizing w with
  | nil => simp [deleteNamespaces]
  | cons fi fis ih =>
    unfold deleteNamespaces
    cases hd : fi.isDir
    · simpa [hd] using ih w
    · have hD : (DeleteNamed w ("gont-" ++ name ++ "-" ++ fi.name)).1.files = w.files ∧
          (DeleteNamed w ("gont-" ++ name ++ "-" ++ fi.name)).1.readErr = w.readErr ∧
          (DeleteNamed w ("gont-" ++ name ++ "-" ++ fi.name)).1.stuck = w.stuck ∧
          (DeleteNamed w ("gont-" ++ name ++ "-" ++ fi.name)).1.log =
            w.log ++ [Event.deleteNamed ("gont-" ++ name ++ "-" ++ fi.name)] := by
        unfold DeleteNamed
        split
        · simp
        · split <;> simp
      obtain ⟨h1, h2, h3, h4⟩ := ih (DeleteNamed w ("gont-" ++ name ++ "-" ++ fi.name)).1
      simp only [Bool.not_true, Bool.false_eq_true, if_false]
      refine ⟨h1.trans hD.1, h2.trans hD.2.1, h3.trans hD.2.2.1, ?_⟩
      rw [h4, hD.2.2.2, List.filter_cons]
      simp [hd]

/-- The outcome of `RemoveAll` on the files depends only on the file system. -/
theorem RemoveAll_congr (w w' : World) (p : Path) (hf : w'.files = w.files)
    (hs : w'.stuck = w.stuck) :
    (RemoveAll w' p).2 = (RemoveAll w p).2 ∧ (RemoveAll w' p).1.files = (RemoveAll w p).1.files ∧
    (RemoveAll w' p).1.readErr = w'.readErr ∧
    (RemoveAll w' p).1.log = w'.log ++ [Event.removeAll p] := by
  have hb : w'.blocked p = w.blocked p := by simp [World.blocked, hf, hs]
  unfold RemoveAll
  rw [hb, hf]
  cases w.blocked p with
  | nil => simp
  | cons s rest => obtain ⟨q, err⟩ := s; simp

theorem ReadDir_congr (w w' : World) (p : Path) (hf : w'.files = w.files)
    (hr : w'.readErr = w.readErr) : ReadDir w' p = ReadDir w p := by
  unfold ReadDir World.isDirectory World.throughFile World.isFile World.children
  rw [hf, hr]

theorem CleanupNetwork_ok (varDir : Path) (w : World) (name : String) (fis : List DirEntry)
    (h : ReadDir w (Join (Join varDir [name]) ["nodes"]) = .ok fis) :
    CleanupNetwork varDir w name = RemoveAll (deleteNamespaces name w fis) (Join varDir [name]) := by
  simp only [CleanupNetwork, h]
  rcases RemoveAll (deleteNamespaces name w fis) (Join varDir [name]) with ⟨w₂, _ | err⟩ <;> rfl

theorem CleanupNetwork_error (varDir : Path) (w : World) (name : String) (err : Error)
    (h : ReadDir w (Join (Join varDir [name]) ["nodes"]) = .error err) :
    CleanupNetwork varDir w name = (w, some err) := by
  simp only [CleanupNetwork, h]

theorem cleanupLoop_append (varDir : Path) (pre rest : List String) (w w₁ : World)
    (h : cleanupLoop varDir w pre = (w₁, none)) :
    cleanupLoop varDir w (pre ++ rest) = cleanupLoop varDir w₁ rest := by
  induction pre generalizing w with
  | nil => simp [cleanupLoop] at h; simp [h]
  | cons name pre ih =>
    simp only [List.cons_append, cleanupLoop] at h ⊢
    rcases hc : CleanupNetwork varDir w name with ⟨w', _ | err⟩
    · rw [hc] at h; simp only at h ⊢; exact ih w' h
    · rw [hc] at h; simp at h

/-! ## Lemmas: paths and the frame of a removal -/


theorem splitSlash_of_not_mem (l : List Char) (h : '/' ∉ l) : splitSlash l = [l] := by
  induction l with
  | nil => rfl
  | cons c cs ih =>
    have hc : c ≠ '/' := fun e => h (by simp [e])
    have hcs : '/' ∉ cs := fun e => h (by simp [e])
    simp [splitSlash, hc, ih hcs]

theorem Join_single (base : Path) (name : String) (h : singleComponent name) :
    Join base [name] = base ++ [name] := by
  obtain ⟨h1, h2, h3, h4⟩ := h
  have hs : splitSlash name.toList = [name.toList] := splitSlash_of_not_mem _ h4
  have hm : String.mk name.toList = name := rfl
  unfold Join
  rw [List.foldl_cons, List.foldl_nil, hs, List.map_cons, List.map_nil, hm]
  simp [cleanInto, h1, h2, h3]

theorem mem_sortStrings {x : String} {l : List String} : x ∈ sortStrings l ↔ x ∈ l :=
  (sortStrings_perm l).mem_iff

theorem ReadDir_ok_iff (w : World) (p : Path) (nets : List DirEntry) :
    ReadDir w p = .ok nets ↔
      w.readErr.lookup p = none ∧ w.isDirectory p = true ∧
        nets = (w.children p).insertionSort (fun a b => strLE a.name b.name) := by
  unfold ReadDir
  cases hr : w.readErr.lookup p with
  | some e => simp
  | none =>
    cases hd : w.isDirectory p with
    | false =>
      simp only [Bool.false_eq_true, if_false, false_and, and_false, iff_false]
      split <;> simp
    | true =>
      simp only [if_true, true_and]
      constructor
      · intro h; injection h with h; exact h.symm
      · intro h; rw [h]

theorem ReadDir_error_of_not_dir (w : World) (p : Path) (h : w.isDirectory p = false) :
    ∃ err, ReadDir w p = .error err := by
  unfold ReadDir
  cases hr : w.readErr.lookup p with
  | some e => exact ⟨e, rfl⟩
  | none =>
    simp only [h, Bool.false_eq_true, if_false]
    split
    · exact ⟨_, rfl⟩
    · exact ⟨_, rfl⟩

/-- The names `GetNetworkNames` lists are the directories among the children of `varDir`. -/
theorem mem_GetNetworkNames (varDir : Path) (w : World) (n : String) :
    n ∈ (GetNetworkNames varDir w).toList ↔
      w.readErr.lookup varDir = none ∧ w.isDirectory varDir = true ∧
        ∃ e ∈ w.files, e.parent = varDir ∧ e.isDir = true ∧ e.name = n := by
  unfold GetNetworkNames
  cases hrd : ReadDir w varDir with
  | error err =>
    simp only [StringSlice.toList, List.not_mem_nil, false_iff]
    rintro ⟨h1, h2, -⟩
    have := (ReadDir_ok_iff w varDir _).mpr ⟨h1, h2, rfl⟩
    rw [hrd] at this; cases this
  | ok nets =>
    obtain ⟨h1, h2, h3⟩ := (ReadDir_ok_iff w varDir nets).mp hrd
    simp only [listing_names, StringSlice.toList, mem_sortStrings, List.mem_map,
      List.mem_filter, h1, h2, true_and]
    subst h3
    constructor
    · rintro ⟨d, ⟨hd1, hd2⟩, rfl⟩
      have hd1' := ((List.perm_insertionSort _ _).mem_iff).mp hd1
      simp only [World.children, List.mem_map, List.mem_filter, beq_iff_eq] at hd1'
      obtain ⟨e, ⟨he1, he2⟩, rfl⟩ := hd1'
      exact ⟨e, he1, he2, hd2, rfl⟩
    · rintro ⟨e, he1, he2, he3, rfl⟩
      refine ⟨⟨e.name, e.isDir⟩, ⟨?_, he3⟩, rfl⟩
      apply ((List.perm_insertionSort _ _).mem_iff).mpr
      simp only [World.children, List.mem_map, List.mem_filter, beq_iff_eq]
      exact ⟨e, ⟨he1, he2⟩, rfl⟩

theorem isPrefixOf_iff {p q : Path} : p.isPrefixOf q = true ↔ p <+: q :=
  List.isPrefixOf_iff_prefix

theorem not_isPrefixOf_self_append (p : Path) (c : String) : (p ++ [c]).isPrefixOf p = false := by
  cases h : (p ++ [c]).isPrefixOf p with
  | false => rfl
  | true =>
    have := List.IsPrefix.length_le (isPrefixOf_iff.mp h)
    simp at this

theorem isPrefixOf_sibling (p : Path) (c d : String) :
    (p ++ [c]).isPrefixOf (p ++ [d]) = true ↔ c = d := by
  rw [isPrefixOf_iff]
  constructor
  · intro h
    have := List.prefix_append_right_inj p |>.mp h
    simpa using this
  · rintro rfl; exact List.prefix_refl _

theorem RemoveAll_ok (w w₂ : World) (p : Path) (h : RemoveAll w p = (w₂, none)) :
    w₂.files = w.files.filter (fun e => !p.isPrefixOf e.path) ∧ w₂.readErr = w.readErr := by
  unfold RemoveAll at h
  split at h
  · simp only [Prod.mk.injEq, and_true] at h
    subst h; simp
  · simp at h


theorem CleanupNetwork_none (varDir : Path) (w : World) (name : String)
    (hok : (CleanupNetwork varDir w name).2 = none) :
    (CleanupNetwork varDir w name).1.files =
        w.files.filter (fun e => !(Join varDir [name]).isPrefixOf e.path) ∧
      (CleanupNetwork varDir w name).1.readErr = w.readErr := by
  cases hrd : ReadDir w (Join (Join varDir [name]) ["nodes"]) with
  | error err => rw [CleanupNetwork_error varDir w name err hrd] at hok; cases hok
  | ok fis =>
    rw [CleanupNetwork_ok varDir w name fis hrd] at hok ⊢
    obtain ⟨hf, hr, -, -⟩ := deleteNamespaces_frame name fis w
    have := RemoveAll_ok (deleteNamespaces name w fis) _ (Join varDir [name])
      (Prod.ext rfl hok)
    rw [hf, hr] at this
    exact this

/-! ## Lemmas: the draw loop and the Capturer -/

theorem GetNetworkNames_sorted (varDir : Path) (w : World) :
    (GetNetworkNames varDir w).toList.Sorted strLE := by
  unfold GetNetworkNames
  cases ReadDir w varDir with
  | error err => simp [StringSlice.toList]
  | ok nets => simp only [listing_names, StringSlice.toList]; exact sortStrings_sorted _

theorem drawLoop_first (existing : List String) (draw : Nat → String)
    (hs : existing.Sorted strLE) :
    ∀ n i k, k < n → draw (i + k) ∉ existing → (∀ j, j < k → draw (i + j) ∈ existing) →
      drawLoop existing draw n i = some (draw (i + k)) := by
  intro n
  induction n with
  | zero => intro i k hk; omega
  | succ n ih =>
    intro i k hk hfree hcoll
    unfold drawLoop
    cases k with
    | zero =>
      have := (search_test_iff existing (draw i) hs).mpr (by simpa using hfree)
      simp only [this, if_true, Nat.add_zero]
    | succ k =>
      have h0 : draw i ∈ existing := by simpa using hcoll 0 (Nat.succ_pos k)
      have : ¬ ((SearchStrings existing (draw i) ≥ existing.length ||
          existing.getD (SearchStrings existing (draw i)) "" != draw i) = true) := by
        rw [search_test_iff existing (draw i) hs]; exact fun h => h h0
      simp only [this, if_false]
      have e : i + (k + 1) = i + 1 + k := by omega
      rw [e]
      apply ih (i + 1) k (by omega)
      · rw [← e]; exact hfree
      · intro j hj
        have := hcoll (j + 1) (by omega)
        have e' : i + (j + 1) = i + 1 + j := by omega
        rw [← e']; exact this

theorem drawLoop_none (existing : List String) (draw : Nat → String)
    (hs : existing.Sorted strLE) :
    ∀ n i, (∀ j, j < n → draw (i + j) ∈ existing) → drawLoop existing draw n i = none := by
  intro n
  induction n with
  | zero => intro i _; rfl
  | succ n ih =>
    intro i hcoll
    unfold drawLoop
    have h0 : draw i ∈ existing := by simpa using hcoll 0 (Nat.succ_pos n)
    have : ¬ ((SearchStrings existing (draw i) ≥ existing.length ||
        existing.getD (SearchStrings existing (draw i)) "" != draw i) = true) := by
      rw [search_test_iff existing (draw i) hs]; exact fun h => h h0
    simp only [this, if_false]
    apply ih (i + 1)
    intro j hj
    have := hcoll (j + 1) (by omega)
    have e' : i + (j + 1) = i + 1 + j := by omega
    rw [← e']; exact this

theorem exists_first (P : Nat → Prop) [DecidablePred P] (n : Nat) (h : ∃ k, k < n ∧ P k) :
    ∃ k, k < n ∧ P k ∧ ∀ j, j < k → ¬ P j := by
  obtain ⟨k, hk, hP⟩ := h
  refine ⟨Nat.find ⟨k, hP⟩, ?_, Nat.find_spec ⟨k, hP⟩, fun j hj => Nat.find_min ⟨k, hP⟩ hj⟩
  exact lt_of_le_of_lt (Nat.find_min' ⟨k, hP⟩ hP) hk

theorem onPacket_accepts (c : Capturer) (ev : Packet × Option Error) (p : Packet) :
    (c.onPacket ev).accepts p = c.accepts p := by
  unfold Capturer.onPacket
  split
  · cases ev.2 <;> rfl
  · rfl

theorem capture_spec (evs : List (Packet × Option Error)) (c : Capturer) :
    (∀ p, (c.capture evs).accepts p = c.accepts p) ∧
    (c.capture evs).count = c.count + (evs.filter (fun ev => c.accepts ev.1)).length ∧
    (c.capture evs).fileBuffered = c.fileBuffered ++
      (evs.filter (fun ev => c.accepts ev.1 && ev.2.isNone)).map (·.1) ∧
    (c.capture evs).fileRecords = c.fileRecords ∧
    (c.capture evs).channel = c.channel ++ (evs.filter (fun ev => c.accepts ev.1)).map (·.1) ∧
    (c.capture evs).callback = c.callback ++ (evs.filter (fun ev => c.accepts ev.1)).map (·.1) ∧
    (c.capture evs).failures = c.failures ++
      (evs.filter (fun ev => c.accepts ev.1)).filterMap (·.2) := by
  induction evs generalizing c with
  | nil => simp [Capturer.capture]
  | cons ev evs ih =>
    have hstep : c.capture (ev :: evs) = (c.onPacket ev).capture evs := rfl
    obtain ⟨h1, h2, h3, h4, h5, h6, h7⟩ := ih (c.onPacket ev)
    have hacc : ∀ p, (c.onPacket ev).accepts p = c.accepts p := onPacket_accepts c ev
    simp only [hacc] at h1 h2 h3 h5 h6 h7
    rw [hstep]
    refine ⟨h1, ?_, ?_, ?_, ?_, ?_, ?_⟩
    · rw [h2, List.filter_cons]
      unfold Capturer.onPacket
      cases ha : c.accepts ev.1
      · simp
      · cases ev.2 <;> simp <;> omega
    · rw [h3, List.filter_cons]
      unfold Capturer.onPacket
      cases ha : c.accepts ev.1
      · simp
      · cases he : ev.2 <;> simp
    · rw [h4]
      unfold Capturer.onPacket
      cases ha : c.accepts ev.1
      · simp
      · cases he : ev.2 <;> simp
    · rw [h5, List.filter_cons]
      unfold Capturer.onPacket
      cases ha : c.accepts ev.1
      · simp
      · cases he : ev.2 <;> simp
    · rw [h6, List.filter_cons]
      unfold Capturer.onPacket
      cases ha : c.accepts ev.1
      · simp
      · cases he : ev.2 <;> simp
    · rw [h7, List.filter_cons]
      unfold Capturer.onPacket
      cases ha : c.accepts ev.1
      · simp
      · cases he : ev.2 <;> simp [he]

theorem filterMap_eq_nil_of_all_none {α β : Type} (l : List α) (f : α → Option β)
    (h : ∀ a, a ∈ l → f a = none) : l.filterMap f = [] := by
  induction l with
  | nil => rfl
  | cons a l ih =>
    rw [List.filterMap_cons_none (h a (List.mem_cons_self a l))]
    exact ih (fun b hb => h b (List.mem_cons_of_mem a hb))

theorem filter_isNone_of_no_failure {α β : Type} (l : List α) (f : α → Option β)
    (h : (l.filterMap f).head? = none) : l.filter (fun a => (f a).isNone) = l := by
  induction l with
  | nil => rfl
  | cons a l ih =>
    cases hf : f a with
    | none =>
      rw [List.filterMap_cons_none hf] at h
      simp [List.filter_cons, hf, ih h]
    | some b =>
      rw [List.filterMap_cons_some hf] at h
      simp at h

/-! ## The claims -/

/-- C1 (as stated, refuted): in `demoWorld` the networks are `neta` and `netb`, and
cleaning up `neta` fails because a node is busy.  `CleanupAllNetworks` returns
that error and never attempts `netb`: no call names it, its state directory and
its namespace are still there, although cleaning it up would succeed. -/
theorem CleanupAllNetworks_aborts_at_first_failure :
    (GetNetworkNames demoVarDir demoWorld).toList = ["neta", "netb"] ∧
    (CleanupNetwork demoVarDir demoWorld "neta").2 = some ⟨"device or resource busy"⟩ ∧
    (CleanupAllNetworks demoVarDir demoWorld).2 = some ⟨"device or resource busy"⟩ ∧
    (CleanupAllNetworks demoVarDir demoWorld).1.log =
      [Event.deleteNamed "gont-neta-h1", Event.deleteNamed "gont-neta-h2",
       Event.removeAll (demoVarDir ++ ["neta"])] ∧
    "netb" ∈ (GetNetworkNames demoVarDir (CleanupAllNetworks demoVarDir demoWorld).1).toList ∧
    "gont-netb-sw" ∈ (CleanupAllNetworks demoVarDir demoWorld).1.netns ∧
    (CleanupNetwork demoVarDir (CleanupAllNetworks demoVarDir demoWorld).1 "netb").2 = none := by
  decide

/-- C1 (amended): `CleanupAllNetworks` stops at the first network whose cleanup
fails.  When every network before `name` was cleaned up and `CleanupNetwork name`
fails with `err`, the result is `err` and the system is left exactly as that
failing call left it: no network after `name` is attempted. -/
theorem CleanupAllNetworks_first_failure (varDir : Path) (w w₁ w₂ : World)
    (pre post : List String) (name : String) (err : Error)
    (hnames : (GetNetworkNames varDir w).toList = pre ++ name :: post)
    (hpre : cleanupLoop varDir w pre = (w₁, none))
    (hfail : CleanupNetwork varDir w₁ name = (w₂, some err)) :
    CleanupAllNetworks varDir w = (w₂, some err) := by
  unfold CleanupAllNetworks
  rw [hnames, cleanupLoop_append varDir pre _ w w₁ hpre]
  simp only [cleanupLoop, hfail]

/-- C1 (amended), on `demoWorld`: the first network, `neta`, fails, and the result is
the system as that call left it together with its error. -/
theorem CleanupAllNetworks_first_failure_witness :
    CleanupAllNetworks demoVarDir demoWorld =
      ((CleanupNetwork demoVarDir demoWorld "neta").1, some ⟨"device or resource busy"⟩) :=
  CleanupAllNetworks_first_failure demoVarDir demoWorld demoWorld
    (CleanupNetwork demoVarDir demoWorld "neta").1 [] ["netb"] "neta"
    ⟨"device or resource busy"⟩ (by decide) (by decide) (by decide)

/-- C2: when the nodes directory of `name` is readable, `CleanupNetwork name` calls
`netns.DeleteNamed "gont-<name>-<node>"` once for every entry that is a
directory, in order, skipping the other entries, and then removes the state
directory; and whatever namespaces exist and whichever deletions fail, the
returned error and the resulting file system are the same. -/
theorem CleanupNetwork_namespaces_best_effort (varDir : Path) (w : World) (name : String)
    (fis : List DirEntry)
    (hread : ReadDir w (Join (Join varDir [name]) ["nodes"]) = .ok fis) :
    (CleanupNetwork varDir w name).1.log =
        w.log ++ (fis.filter (·.isDir)).map
            (fun fi => Event.deleteNamed ("gont-" ++ name ++ "-" ++ fi.name)) ++
          [Event.removeAll (Join varDir [name])] ∧
    ∀ (netns : List String) (nsErr : List (String × Error)),
      (CleanupNetwork varDir { w with netns := netns, nsErr := nsErr } name).2 =
          (CleanupNetwork varDir w name).2 ∧
        (CleanupNetwork varDir { w with netns := netns, nsErr := nsErr } name).1.files =
          (CleanupNetwork varDir w name).1.files := by
  obtain ⟨hf, -, hs, hl⟩ := deleteNamespaces_frame name fis w
  constructor
  · rw [CleanupNetwork_ok varDir w name fis hread,
      (RemoveAll_congr w (deleteNamespaces name w fis) _ hf hs).2.2.2, hl]
  · intro netns nsErr
    have hread' : ReadDir { w with netns := netns, nsErr := nsErr }
        (Join (Join varDir [name]) ["nodes"]) = .ok fis := by
      rw [ReadDir_congr w { w with netns := netns, nsErr := nsErr } _ rfl rfl]; exact hread
    obtain ⟨hf', -, hs', -⟩ :=
      deleteNamespaces_frame name fis { w with netns := netns, nsErr := nsErr }
    rw [CleanupNetwork_ok varDir w name fis hread, CleanupNetwork_ok varDir _ name fis hread']
    have h1 := RemoveAll_congr w (deleteNamespaces name w fis) (Join varDir [name]) hf hs
    have h2 := RemoveAll_congr w
      (deleteNamespaces name { w with netns := netns, nsErr := nsErr } fis)
      (Join varDir [name]) hf' hs'
    exact ⟨h2.1.trans h1.1.symm, h2.2.1.trans h1.2.1.symm⟩

/-- C2 on `demoWorld` and `demoWorldNs`, which differ in their namespaces only: the
same calls, the same error, the same files. -/
theorem CleanupNetwork_namespaces_best_effort_witness :
    (CleanupNetwork demoVarDir demoWorld "neta").1.log =
        [Event.deleteNamed "gont-neta-h1", Event.deleteNamed "gont-neta-h2",
         Event.removeAll (demoVarDir ++ ["neta"])] ∧
      (CleanupNetwork demoVarDir demoWorldNs "neta").2 =
        (CleanupNetwork demoVarDir demoWorld "neta").2 ∧
      (CleanupNetwork demoVarDir demoWorldNs "neta").1.files =
        (CleanupNetwork demoVarDir demoWorld "neta").1.files :=
  have h := CleanupNetwork_namespaces_best_effort demoVarDir demoWorld "neta"
    [⟨"h1", true⟩, ⟨"h2", true⟩, ⟨"x.txt", false⟩] rfl
  ⟨h.1, h.2 ["gont-netb-sw"] [("gont-neta-h1", ⟨"operation not permitted"⟩)]⟩


/-- C3: when the nodes directory of `name` is readable and removing the state
directory `<varDir>/<name>` fails with error `e`, `CleanupNetwork name` returns
exactly `e`; and `CleanupAllNetworks`, started in any system `w₀` from which it
reaches `name` in this state (every earlier network was cleaned up), returns `e`. -/
theorem CleanupNetwork_propagates_remove_error (varDir : Path) (w : World) (name : String)
    (fis : List DirEntry) (e : Error)
    (hread : ReadDir w (Join (Join varDir [name]) ["nodes"]) = .ok fis)
    (hremove : (RemoveAll w (Join varDir [name])).2 = some e) :
    (CleanupNetwork varDir w name).2 = some e ∧
    ∀ (w₀ : World) (pre post : List String),
      (GetNetworkNames varDir w₀).toList = pre ++ name :: post →
      cleanupLoop varDir w₀ pre = (w, none) →
      (CleanupAllNetworks varDir w₀).2 = some e := by
  obtain ⟨hf, -, hs, -⟩ := deleteNamespaces_frame name fis w
  have hone : (CleanupNetwork varDir w name).2 = some e := by
    rw [CleanupNetwork_ok varDir w name fis hread,
      (RemoveAll_congr w (deleteNamespaces name w fis) _ hf hs).1]
    exact hremove
  refine ⟨hone, ?_⟩
  intro w₀ pre post hnames hpre
  unfold CleanupAllNetworks
  rw [hnames, cleanupLoop_append varDir pre _ w₀ w hpre]
  rcases hc : CleanupNetwork varDir w name with ⟨w₂, _ | err⟩
  · rw [hc] at hone; cases hone
  · rw [hc] at hone
    simp only [cleanupLoop, hc]
    exact hone

/-- C3 on `demoWorld`: removing `neta` fails on a busy node, and both functions
return that error. -/
theorem CleanupNetwork_propagates_remove_error_witness :
    (CleanupNetwork demoVarDir demoWorld "neta").2 = some ⟨"device or resource busy"⟩ ∧
      (CleanupAllNetworks demoVarDir demoWorld).2 = some ⟨"device or resource busy"⟩ :=
  have h := CleanupNetwork_propagates_remove_error demoVarDir demoWorld "neta"
    [⟨"h1", true⟩, ⟨"h2", true⟩, ⟨"x.txt", false⟩] ⟨"device or resource busy"⟩ rfl (by decide)
  ⟨h.1, h.2 demoWorld [] ["netb"] (by decide) (by decide)⟩

/-- C4: when `name` is one of the names `GetNetworkNames` lists, is a single path
component and `CleanupNetwork name` returns `nil`, then afterwards `GetNetworkNames`
no longer lists `name` and still lists every other name it listed before; the
file system has lost exactly the entries at or below `<varDir>/<name>`. -/
theorem CleanupNetwork_frame (varDir : Path) (w : World) (name : String)
    (hmem : name ∈ (GetNetworkNames varDir w).toList) (hsc : singleComponent name)
    (hok : (CleanupNetwork varDir w name).2 = none) :
    (name ∉ (GetNetworkNames varDir (CleanupNetwork varDir w name).1).toList ∧
      ∀ n, n ∈ (GetNetworkNames varDir w).toList → n ≠ name →
        n ∈ (GetNetworkNames varDir (CleanupNetwork varDir w name).1).toList) ∧
    (∀ e, e ∈ (CleanupNetwork varDir w name).1.files ↔
      e ∈ w.files ∧ ¬ (varDir ++ [name]) <+: e.path) := by
  obtain ⟨hf, hr⟩ := CleanupNetwork_none varDir w name hok
  rw [Join_single varDir name hsc] at hf
  have hfiles : ∀ e, e ∈ (CleanupNetwork varDir w name).1.files ↔
      e ∈ w.files ∧ ¬ (varDir ++ [name]) <+: e.path := by
    intro e
    rw [hf, List.mem_filter, Bool.not_eq_true', ← Bool.not_eq_true, isPrefixOf_iff]
  have hchild : ∀ e : FileEntry, e.parent = varDir →
      ((varDir ++ [name]) <+: e.path ↔ name = e.name) := by
    intro e he
    rw [← isPrefixOf_iff, FileEntry.path, he, isPrefixOf_sibling]
  obtain ⟨hr0, hd0, -⟩ := (mem_GetNetworkNames varDir w name).mp hmem
  have hd1 : (CleanupNetwork varDir w name).1.isDirectory varDir = true := by
    simp only [World.isDirectory, Bool.or_eq_true, beq_iff_eq, List.any_eq_true,
      Bool.and_eq_true] at hd0 ⊢
    rcases hd0 with h | ⟨e, he, hp, hdir⟩
    · exact Or.inl h
    · refine Or.inr ⟨e, (hfiles e).mpr ⟨he, ?_⟩, hp, hdir⟩
      rw [← isPrefixOf_iff, hp, not_isPrefixOf_self_append]
      simp
  refine ⟨⟨?_, ?_⟩, hfiles⟩
  · intro h
    obtain ⟨-, -, e, he, hp, -, hn⟩ := (mem_GetNetworkNames _ _ _).mp h
    exact ((hfiles e).mp he).2 ((hchild e hp).mpr hn.symm)
  · intro n hn hne
    obtain ⟨-, -, e, he, hp, hdir, hen⟩ := (mem_GetNetworkNames _ _ _).mp hn
    refine (mem_GetNetworkNames _ _ _).mpr ⟨hr ▸ hr0, hd1, e, (hfiles e).mpr ⟨he, ?_⟩, hp, hdir, hen⟩
    intro hpre
    exact hne (hen ▸ ((hchild e hp).mp hpre).symm)

/-- C4 on `demoWorld`: after cleaning up `netb`, `netb` is no longer listed and `neta`
still is. -/
theorem CleanupNetwork_frame_witness :
    "netb" ∉ (GetNetworkNames demoVarDir (CleanupNetwork demoVarDir demoWorld "netb").1).toList ∧
      "neta" ∈ (GetNetworkNames demoVarDir (CleanupNetwork demoVarDir demoWorld "netb").1).toList :=
  have h := CleanupNetwork_frame demoVarDir demoWorld "netb" (by decide) (by decide) (by decide)
  ⟨h.1.1, h.1.2 "neta" (by decide) (by decide)⟩

/-- C5: when the state root can be read, `GetNetworkNames` returns a slice that
holds exactly the names of the entries that are directories, each as often as
it is listed, in ascending order; when it cannot be read, the result is the
empty slice, not `nil` (and the function has no error result). -/
theorem GetNetworkNames_spec (varDir : Path) (w : World) :
    (∀ nets, ReadDir w varDir = .ok nets →
      ∃ l, GetNetworkNames varDir w = .mk l ∧
        l.Perm ((nets.filter (·.isDir)).map (·.name)) ∧ l.Sorted strLE) ∧
    (∀ err, ReadDir w varDir = .error err → GetNetworkNames varDir w = .mk []) := by
  constructor
  · intro nets h
    refine ⟨sortStrings ((nets.filter (·.isDir)).map (·.name)), ?_, sortStrings_perm _,
      sortStrings_sorted _⟩
    simp only [GetNetworkNames, h, listing_names]
  · intro err h
    simp only [GetNetworkNames, h]

/-- C5 on `demoWorld`, whose state root holds two directories and a file, and on
`lockedWorld`, whose state root cannot be read. -/
theorem GetNetworkNames_spec_witness :
    (∃ l, GetNetworkNames demoVarDir demoWorld = .mk l ∧
        l.Perm ["neta", "netb"] ∧ l.Sorted strLE) ∧
      GetNetworkNames demoVarDir lockedWorld = .mk [] :=
  ⟨(GetNetworkNames_spec demoVarDir demoWorld).1
      [⟨"lock", false⟩, ⟨"neta", true⟩, ⟨"netb", true⟩] rfl,
    (GetNetworkNames_spec demoVarDir lockedWorld).2 ⟨"permission denied"⟩ rfl⟩

/-- C6: when `<varDir>/<network>/nodes` can be read, `GetNodeNames network` returns
exactly the names of its entries that are directories, in ascending order; when
it cannot be read, and in particular when it is not an existing directory, the
result is the empty slice. -/
theorem GetNodeNames_spec (varDir : Path) (w : World) (network : String) :
    (∀ nets, ReadDir w (Join varDir [network, "nodes"]) = .ok nets →
      ∃ l, GetNodeNames varDir w network = .mk l ∧
        l.Perm ((nets.filter (·.isDir)).map (·.name)) ∧ l.Sorted strLE) ∧
    (∀ err, ReadDir w (Join varDir [network, "nodes"]) = .error err →
      GetNodeNames varDir w network = .mk []) ∧
    (w.isDirectory (Join varDir [network, "nodes"]) = false →
      GetNodeNames varDir w network = .mk []) := by
  refine ⟨?_, ?_, ?_⟩
  · intro nets h
    refine ⟨sortStrings ((nets.filter (·.isDir)).map (·.name)), ?_, sortStrings_perm _,
      sortStrings_sorted _⟩
    simp only [GetNodeNames, h, listing_names]
  · intro err h
    simp only [GetNodeNames, h]
  · intro h
    obtain ⟨err, herr⟩ := ReadDir_error_of_not_dir w _ h
    simp only [GetNodeNames, herr]

/-- C6 on the network `neta` of `demoWorld`, on an unreadable state root and on a
network that does not exist. -/
theorem GetNodeNames_spec_witness :
    (∃ l, GetNodeNames demoVarDir demoWorld "neta" = .mk l ∧
        l.Perm ["h1", "h2"] ∧ l.Sorted strLE) ∧
      GetNodeNames demoVarDir lockedWorld "lock" = .mk [] ∧
      GetNodeNames demoVarDir demoWorld "ghost" = .mk [] :=
  ⟨(GetNodeNames_spec demoVarDir demoWorld "neta").1
      [⟨"h1", true⟩, ⟨"h2", true⟩, ⟨"x.txt", false⟩] rfl,
    (GetNodeNames_spec demoVarDir lockedWorld "lock").2.1 errNotDir rfl,
    (GetNodeNames_spec demoVarDir demoWorld "ghost").2.2 (by decide)⟩

/-- C9: when the directory `<varDir>/<name>/nodes` cannot be read, `CleanupNetwork name`
returns that read error and leaves the whole system as it was: no namespace
deletion is attempted and nothing is removed.  This is so in particular when
that path is not an existing directory (the network directory has no `nodes`
subdirectory, or the network is absent). -/
theorem CleanupNetwork_read_failure (varDir : Path) (w : World) (name : String) :
    (∀ err, ReadDir w (Join (Join varDir [name]) ["nodes"]) = .error err →
      CleanupNetwork varDir w name = (w, some err)) ∧
    (w.isDirectory (Join (Join varDir [name]) ["nodes"]) = false →
      ∃ err, ReadDir w (Join (Join varDir [name]) ["nodes"]) = .error err ∧
        CleanupNetwork varDir w name = (w, some err)) := by
  constructor
  · intro err h
    exact CleanupNetwork_error varDir w name err h
  · intro h
    obtain ⟨err, herr⟩ := ReadDir_error_of_not_dir w _ h
    exact ⟨err, herr, CleanupNetwork_error varDir w name err herr⟩

/-- C9 on `bareWorld`, where the network `bare` has no `nodes` subdirectory and the
network `ghost` does not exist, and on the regular file `lock` of `demoWorld`:
every call fails with the read error and changes nothing. -/
theorem CleanupNetwork_read_failure_witness :
    CleanupNetwork demoVarDir bareWorld "bare" = (bareWorld, some errNotExist) ∧
      CleanupNetwork demoVarDir demoWorld "lock" = (demoWorld, some errNotDir) ∧
      ∃ err, ReadDir bareWorld (Join (Join demoVarDir ["ghost"]) ["nodes"]) = .error err ∧
        CleanupNetwork demoVarDir bareWorld "ghost" = (bareWorld, some err) :=
  ⟨(CleanupNetwork_read_failure demoVarDir bareWorld "bare").1 errNotExist rfl,
    (CleanupNetwork_read_failure demoVarDir demoWorld "lock").1 errNotDir rfl,
    (CleanupNetwork_read_failure demoVarDir bareWorld "ghost").2 (by decide)⟩


/-- C10: if one of the 32 draws of `GetRandomName` is not an existing network name,
`GenerateNetworkName` returns the first such draw, which is not among
`GetNetworkNames()`.  If all 32 draws are existing names, it returns (for a
non-empty table `Names`) an element of `Names` followed by the decimal form of
an integer between 1 and 128. -/
theorem GenerateNetworkName_spec (varDir : Path) (w : World) (draw : Nat → String)
    (Names : List String) (r₁ r₂ : Nat) :
    ((∃ k, k < 32 ∧ draw k ∉ (GetNetworkNames varDir w).toList) →
      ∃ k, k < 32 ∧ GenerateNetworkName varDir w draw Names r₁ r₂ = some (draw k) ∧
        draw k ∉ (GetNetworkNames varDir w).toList ∧
        ∀ j, j < k → draw j ∈ (GetNetworkNames varDir w).toList) ∧
    ((∀ k, k < 32 → draw k ∈ (GetNetworkNames varDir w).toList) → Names ≠ [] →
      ∃ nm, nm ∈ Names ∧ ∃ n, 1 ≤ n ∧ n ≤ 128 ∧
        GenerateNetworkName varDir w draw Names r₁ r₂ = some (nm ++ toString n)) := by
  have hs := GetNetworkNames_sorted varDir w
  constructor
  · intro h
    obtain ⟨k, hk, hfree, hmin⟩ :=
      exists_first (fun k => draw k ∉ (GetNetworkNames varDir w).toList) 32 h
    have hcoll : ∀ j, j < k → draw j ∈ (GetNetworkNames varDir w).toList :=
      fun j hj => not_not.mp (hmin j hj)
    refine ⟨k, hk, ?_, hfree, hcoll⟩
    have := drawLoop_first _ draw hs 32 0 k hk (by simpa using hfree)
      (by intro j hj; simpa using hcoll j hj)
    simp only [GenerateNetworkName, this, Nat.zero_add]
  · intro hall hne
    have hnone := drawLoop_none _ draw hs 32 0 (by intro j hj; simpa using hall j hj)
    have hlen : 0 < Names.length := List.length_pos.mpr hne
    have hidx : r₁ % Names.length < Names.length := Nat.mod_lt _ hlen
    refine ⟨Names.getD (r₁ % Names.length) "", ?_, r₂ % 128 + 1, by omega, ?_, ?_⟩
    · rw [List.getD_eq_getElem _ _ hidx]; exact List.getElem_mem _
    · have := Nat.mod_lt r₂ (show 0 < 128 by decide); omega
    · simp only [GenerateNetworkName, hnone, Intn, Nat.ne_of_gt hlen, if_false]
      simp

/-- C10 on `demoWorld`: with `demoDraw` the fourth draw is the first free name; with
`collidingDraw` all 32 draws collide and the fallback is returned. -/
theorem GenerateNetworkName_spec_witness :
    (∃ k, k < 32 ∧ GenerateNetworkName demoVarDir demoWorld demoDraw ["alpha", "beta"] 7 255 =
        some (demoDraw k) ∧
      demoDraw k ∉ (GetNetworkNames demoVarDir demoWorld).toList ∧
      ∀ j, j < k → demoDraw j ∈ (GetNetworkNames demoVarDir demoWorld).toList) ∧
    ∃ nm, nm ∈ ["alpha", "beta"] ∧ ∃ n, 1 ≤ n ∧ n ≤ 128 ∧
      GenerateNetworkName demoVarDir demoWorld collidingDraw ["alpha", "beta"] 7 255 =
        some (nm ++ toString n) :=
  ⟨(GenerateNetworkName_spec demoVarDir demoWorld demoDraw ["alpha", "beta"] 7 255).1
      ⟨3, by decide, by decide⟩,
    (GenerateNetworkName_spec demoVarDir demoWorld collidingDraw ["alpha", "beta"] 7 255).2
      (by decide) (by decide)⟩

/-- C8: for every sequence of tap events offered to a fresh Capturer, `Count()` after
`Flush()` equals the number of packets that passed all of its filters.  When
`Flush` reports no failure, the records readable from the file are exactly the
accepted packets, in order, so their number equals `Count()`; and `Flush`
reports no failure whenever the file sink is non-lossy (every append and the
flush itself succeed).  A packet rejected by a filter is in no sink, and the
file never holds more records than were counted. -/
theorem Capturer_count_records (kernelFilter : Option (Packet → Bool))
    (predicates : List (Packet → Bool)) (evs : List (Packet × Option Error))
    (sinkFlush : Option Error) :
    let c₀ := NewCapture kernelFilter predicates
    let r := (c₀.capture evs).Flush sinkFlush
    r.1.Count = (evs.filter (fun ev => c₀.accepts ev.1)).length ∧
    (r.2 = none →
      r.1.fileRecords = (evs.filter (fun ev => c₀.accepts ev.1)).map (·.1) ∧
        r.1.fileRecords.length = r.1.Count) ∧
    ((∀ ev, ev ∈ evs → ev.2 = none) → sinkFlush = none → r.2 = none) ∧
    r.1.fileRecords.length ≤ r.1.Count ∧
    (∀ p, c₀.accepts p = false →
      p ∉ r.1.fileRecords ∧ p ∉ r.1.channel ∧ p ∉ r.1.callback) := by
  intro c₀ r
  obtain ⟨-, h2, h3, h4, h5, h6, h7⟩ := capture_spec evs c₀
  have e2 : (c₀.capture evs).count = (evs.filter (fun ev => c₀.accepts ev.1)).length := by
    rw [h2]; simp [c₀, NewCapture]
  have e3 : (c₀.capture evs).fileBuffered =
      (evs.filter (fun ev => c₀.accepts ev.1 && ev.2.isNone)).map (·.1) := by
    rw [h3]; simp [c₀, NewCapture]
  have e4 : (c₀.capture evs).fileRecords = [] := by
    rw [h4]; simp [c₀, NewCapture]
  have e5 : (c₀.capture evs).channel = (evs.filter (fun ev => c₀.accepts ev.1)).map (·.1) := by
    rw [h5]; simp [c₀, NewCapture]
  have e6 : (c₀.capture evs).callback = (evs.filter (fun ev => c₀.accepts ev.1)).map (·.1) := by
    rw [h6]; simp [c₀, NewCapture]
  have e7 : (c₀.capture evs).failures =
      (evs.filter (fun ev => c₀.accepts ev.1)).filterMap (·.2) := by
    rw [h7]; simp [c₀, NewCapture]
  have hsplit : (evs.filter (fun ev => c₀.accepts ev.1 && ev.2.isNone)) =
      (evs.filter (fun ev => c₀.accepts ev.1)).filter (fun ev => ev.2.isNone) := by
    rw [List.filter_filter]
    apply List.filter_congr
    intro ev _
    exact Bool.and_comm _ _
  cases hsf : sinkFlush with
  | some err =>
    have hr : r = (c₀.capture evs, some ((c₀.capture evs).failures.head?.getD err)) := by
      show (c₀.capture evs).Flush sinkFlush = _
      rw [hsf]; rfl
    rw [hr]
    refine ⟨e2, fun h => Option.noConfusion h, fun _ h => Option.noConfusion h, ?_, ?_⟩
    · show (c₀.capture evs).fileRecords.length ≤ _
      rw [e4]; exact Nat.zero_le _
    · intro p hp
      show p ∉ (c₀.capture evs).fileRecords ∧ p ∉ (c₀.capture evs).channel ∧
        p ∉ (c₀.capture evs).callback
      rw [e4, e5, e6]
      simp only [List.not_mem_nil, not_false_eq_true, List.mem_map, List.mem_filter, true_and,
        not_exists, not_and]
      constructor
      · rintro ev ⟨-, hacc⟩ rfl; rw [hp] at hacc; cases hacc
      · rintro ev ⟨-, hacc⟩ rfl; rw [hp] at hacc; cases hacc
  | none =>
    have hr : r = ({ c₀.capture evs with
        fileRecords := (c₀.capture evs).fileRecords ++ (c₀.capture evs).fileBuffered,
        fileBuffered := [] }, (c₀.capture evs).failures.head?) := by
      show (c₀.capture evs).Flush sinkFlush = _
      rw [hsf]; rfl
    rw [hr]
    have hrec : (c₀.capture evs).fileRecords ++ (c₀.capture evs).fileBuffered =
        ((evs.filter (fun ev => c₀.accepts ev.1)).filter (fun ev => ev.2.isNone)).map (·.1) := by
      rw [e4, e3, hsplit, List.nil_append]
    refine ⟨e2, ?_, ?_, ?_, ?_⟩
    · intro hflush
      have hfail : ((evs.filter (fun ev => c₀.accepts ev.1)).filterMap (·.2)).head? = none := by
        rw [← e7]; exact hflush
      have hall := filter_isNone_of_no_failure _ _ hfail
      show (c₀.capture evs).fileRecords ++ (c₀.capture evs).fileBuffered = _ ∧
        ((c₀.capture evs).fileRecords ++ (c₀.capture evs).fileBuffered).length =
          (c₀.capture evs).count
      rw [hrec, hall, e2, List.length_map]
      exact ⟨rfl, rfl⟩
    · intro hgood _
      show (c₀.capture evs).failures.head? = none
      rw [e7, filterMap_eq_nil_of_all_none _ _
        (fun ev hev => hgood ev (List.mem_filter.mp hev).1)]
      rfl
    · show ((c₀.capture evs).fileRecords ++ (c₀.capture evs).fileBuffered).length ≤
        (c₀.capture evs).count
      rw [hrec, e2, List.length_map]
      exact List.length_filter_le _ _
    · intro p hp
      show p ∉ (c₀.capture evs).fileRecords ++ (c₀.capture evs).fileBuffered ∧
        p ∉ (c₀.capture evs).channel ∧ p ∉ (c₀.capture evs).callback
      rw [hrec, e5, e6]
      simp only [List.mem_map, List.mem_filter, not_exists, not_and]
      refine ⟨?_, ?_, ?_⟩
      · rintro ev ⟨⟨-, hacc⟩, -⟩ rfl; rw [hp] at hacc; cases hacc
      · rintro ev ⟨-, hacc⟩ rfl; rw [hp] at hacc; cases hacc
      · rintro ev ⟨-, hacc⟩ rfl; rw [hp] at hacc; cases hacc

/-- C8 on `demoCapture` and `demoEvents`: of ten packets two are rejected; `Flush`
reports no failure, `Count()` is 8, the file holds 8 records, and the rejected
packet is not among them. -/
theorem Capturer_count_records_witness :
    ((demoCapture.capture demoEvents).Flush none).2 = none ∧
      ((demoCapture.capture demoEvents).Flush none).1.Count = 8 ∧
      ((demoCapture.capture demoEvents).Flush none).1.fileRecords.length = 8 ∧
      otherPacket ∉ ((demoCapture.capture demoEvents).Flush none).1.fileRecords :=
  have h := Capturer_count_records (some isEcho) [isEcho] demoEvents none
  ⟨h.2.2.1 (by decide) rfl, h.1, ((h.2.1 rfl).2).trans h.1, (h.2.2.2.2 otherPacket rfl).1⟩

end Gont
